import Mathlib

/-!
Shallow embedding of the audio/video batch-processing pipeline
(`synchronizer.rs`, `audio_processor.rs`, `video_processor.rs`,
`frame_analyzer.rs`, `ml_backend.rs`, `batch_processor.rs`).

Conventions. Rust `f64`/`f32` values are modelled as `ℚ`: the pipeline only
compares these values and multiplies/divides exact stream parameters, and
every claim is about exact comparisons, so exact rationals model the
finitely many float values that occur. Rust `Result` is `Except String`,
`Option` is `Option`, `Vec` is `List`. File-system and decoder effects are
modelled as explicit environment records holding the outcome of each
external call; the functions below are the source functions with those
effects passed in. Wall-clock fields (`processing_time`,
`total_processing_time`) are omitted: no claim mentions them and real time
is not statable in this embedding.
-/

deriving instance DecidableEq for Except

/-- `AudioResult` from `audio_processor.rs`: one transcript span. -/
structure AudioResult where
  start_time : ℚ
  end_time : ℚ
  text : String
deriving DecidableEq

/-- One detected object `(label, confidence, bbox)` as in the Rust
`Vec<(String, f32, [f32; 4])>` fields (`frame_analyzer.rs`, `synchronizer.rs`). -/
abbrev VObj : Type := String × ℚ × (ℚ × ℚ × ℚ × ℚ)

/-- `FrameResult` from `frame_analyzer.rs`. -/
structure FrameResult where
  timestamp : ℚ
  objects : List VObj
deriving DecidableEq

/-- `SynchronizedResult` from `synchronizer.rs`. -/
structure SynchronizedResult where
  timestamp : ℚ
  video_objects : List VObj
  audio_text : Option String
deriving DecidableEq

/-- The span-containment test of `synchronize_results`:
`audio.start_time <= timestamp && timestamp <= audio.end_time`. -/
def spanHit (t : ℚ) (a : AudioResult) : Bool :=
  decide (a.start_time ≤ t ∧ t ≤ a.end_time)

/-- The transcript selected for one timestamp: the
`audio_results.iter().find(..).map(..)` expression of `synchronize_results`. -/
def transcriptFor (audio_results : List AudioResult) (t : ℚ) : Option String :=
  (audio_results.find? (spanHit t)).map (fun a => a.text)

/-- Body of the `for frame_result in frame_results` loop of
`synchronize_results`: the record pushed for one frame. -/
def mkRecord (audio_results : List AudioResult) (fr : FrameResult) : SynchronizedResult :=
  ⟨fr.timestamp, fr.objects, transcriptFor audio_results fr.timestamp⟩

/-- The loop of `synchronize_results`, with the `synchronized` accumulator
made explicit. -/
def syncLoop (audio_results : List AudioResult) :
    List FrameResult → List SynchronizedResult → List SynchronizedResult
  | [], acc => acc
  | fr :: rest, acc => syncLoop audio_results rest (acc ++ [mkRecord audio_results fr])

/-- `synchronize_results` from `synchronizer.rs`. -/
def synchronize_results (frame_results : List FrameResult) (audio_results : List AudioResult) :
    List SynchronizedResult :=
  syncLoop audio_results frame_results []

theorem syncLoop_append (ars : List AudioResult) :
    ∀ (l : List FrameResult) (acc : List SynchronizedResult),
      syncLoop ars l acc = acc ++ l.map (mkRecord ars)
  | [], acc => by simp [syncLoop]
  | fr :: rest, acc => by
    rw [syncLoop, syncLoop_append ars rest]
    simp

theorem synchronize_results_eq_map (frames : List FrameResult) (spans : List AudioResult) :
    synchronize_results frames spans = frames.map (mkRecord spans) := by
  simp [synchronize_results, syncLoop_append]

theorem transcriptFor_eq_none_iff (spans : List AudioResult) (t : ℚ) :
    transcriptFor spans t = none ↔ ∀ a ∈ spans, ¬(a.start_time ≤ t ∧ t ≤ a.end_time) := by
  simp [transcriptFor, List.find?_eq_none, spanHit]

theorem transcriptFor_eq_some_iff (spans : List AudioResult) (t : ℚ) (txt : String) :
    transcriptFor spans t = some txt ↔
      ∃ a pre post, spans = pre ++ a :: post ∧ (a.start_time ≤ t ∧ t ≤ a.end_time) ∧
        (∀ b ∈ pre, ¬(b.start_time ≤ t ∧ t ≤ b.end_time)) ∧ a.text = txt := by
  induction spans with
  | nil =>
    constructor
    · intro h; simp [transcriptFor] at h
    · rintro ⟨a, pre, post, heq, -⟩
      cases pre <;> simp at heq
  | cons c l ih =>
    by_cases h : c.start_time ≤ t ∧ t ≤ c.end_time
    · rw [transcriptFor, List.find?_cons_of_pos _ (by simpa [spanHit] using h)]
      simp only [Option.map_some']
      constructor
      · intro htxt
        exact ⟨c, [], l, rfl, h, by simp, by simpa using htxt⟩
      · rintro ⟨a, pre, post, heq, ha, hpre, htxt⟩
        cases pre with
        | nil =>
          simp only [List.nil_append, List.cons.injEq] at heq
          rw [heq.1]
          simp [htxt]
        | cons p pre2 =>
          simp only [List.cons_append, List.cons.injEq] at heq
          exact absurd (heq.1 ▸ h) (hpre p (by simp))
    · rw [transcriptFor, List.find?_cons_of_neg _ (by simpa [spanHit] using h)]
      rw [← transcriptFor, ih]
      constructor
      · rintro ⟨a, pre, post, heq, ha, hpre, htxt⟩
        refine ⟨a, c :: pre, post, by simp [heq], ha, ?_, htxt⟩
        intro b hb
        rcases List.mem_cons.mp hb with hb | hb
        · exact hb ▸ h
        · exact hpre b hb
      · rintro ⟨a, pre, post, heq, ha, hpre, htxt⟩
        cases pre with
        | nil =>
          simp only [List.nil_append, List.cons.injEq] at heq
          exact absurd (heq.1 ▸ ha) h
        | cons p pre2 =>
          simp only [List.cons_append, List.cons.injEq] at heq
          refine ⟨a, pre2, post, heq.2, ha, ?_, htxt⟩
          intro b hb
          exact hpre b (by simp [hb])

/-- C2: `synchronize_results` returns exactly one record per input frame, in
frame order; record `i` carries frame `i`'s timestamp and detections
unchanged, and its transcript is the text of the first span (in the given
span order) containing the frame timestamp, or `none` when no span contains
it. -/
theorem c2_synchronizer_postcondition (frames : List FrameResult) (spans : List AudioResult) :
    synchronize_results frames spans
        = frames.map (fun f => ⟨f.timestamp, f.objects, transcriptFor spans f.timestamp⟩)
      ∧ (synchronize_results frames spans).length = frames.length
      ∧ (∀ t : ℚ, transcriptFor spans t = none ↔
          ∀ a ∈ spans, ¬(a.start_time ≤ t ∧ t ≤ a.end_time))
      ∧ (∀ (t : ℚ) (txt : String), transcriptFor spans t = some txt ↔
          ∃ a pre post, spans = pre ++ a :: post ∧ (a.start_time ≤ t ∧ t ≤ a.end_time) ∧
            (∀ b ∈ pre, ¬(b.start_time ≤ t ∧ t ≤ b.end_time)) ∧ a.text = txt) := by
  refine ⟨synchronize_results_eq_map frames spans, ?_, ?_, ?_⟩
  · rw [synchronize_results_eq_map]; simp
  · intro t; exact transcriptFor_eq_none_iff spans t
  · intro t txt; exact transcriptFor_eq_some_iff spans t txt

/-- C2 witness: a frame at `t = 7.5` with spans `(0,5,"A"), (5,10,"B")` gets
transcript `"B"`, and a frame at `t = 12` gets no transcript. -/
theorem c2_synchronizer_postcondition_witness :
    synchronize_results [⟨mkRat 15 2, []⟩, ⟨(12 : ℚ), []⟩] [⟨0, 5, "A"⟩, ⟨5, 10, "B"⟩]
      = [⟨mkRat 15 2, [], some "B"⟩, ⟨(12 : ℚ), [], none⟩] := by
  rw [(c2_synchronizer_postcondition [⟨mkRat 15 2, []⟩, ⟨(12 : ℚ), []⟩]
        [⟨0, 5, "A"⟩, ⟨5, 10, "B"⟩]).1]
  decide

/-- C9: each record of `synchronize_results` depends only on its own frame
(and the span list): the result is the pointwise image of the frame list, so
permuting the frames yields the correspondingly permuted record list. -/
theorem c9_per_frame_locality (frames frames' : List FrameResult) (spans : List AudioResult)
    (hperm : frames.Perm frames') :
    synchronize_results frames spans = frames.map (mkRecord spans)
      ∧ (synchronize_results frames spans).Perm (synchronize_results frames' spans) := by
  refine ⟨synchronize_results_eq_map frames spans, ?_⟩
  rw [synchronize_results_eq_map, synchronize_results_eq_map]
  exact hperm.map (mkRecord spans)

/-- C9 witness: a concrete permuted pair of frame lists. -/
theorem c9_per_frame_locality_witness :
    ([⟨(1 : ℚ), []⟩, ⟨(6 : ℚ), []⟩] : List FrameResult).Perm [⟨(6 : ℚ), []⟩, ⟨(1 : ℚ), []⟩]
      ∧ (synchronize_results [⟨(1 : ℚ), []⟩, ⟨(6 : ℚ), []⟩] [⟨0, 5, "A"⟩]
          = [⟨(1 : ℚ), []⟩, ⟨(6 : ℚ), []⟩].map (mkRecord [⟨0, 5, "A"⟩])
        ∧ (synchronize_results [⟨(1 : ℚ), []⟩, ⟨(6 : ℚ), []⟩] [⟨0, 5, "A"⟩]).Perm
            (synchronize_results [⟨(6 : ℚ), []⟩, ⟨(1 : ℚ), []⟩] [⟨0, 5, "A"⟩])) :=
  ⟨by decide, c9_per_frame_locality _ _ _ (by decide)⟩

/-- `transcribe_audio` from `audio_processor.rs`: the transcription stub.
Regardless of the audio path it returns `Ok` with the same two spans. -/
def transcribe_audio (_audio_path : String) : Except String (List AudioResult) :=
  .ok [⟨0, 5, "Hello, this is a sample transcription"⟩,
       ⟨5, 10, "This demonstrates audio processing capabilities"⟩]

/-- One `fs::read_dir` entry of the input directory: its file name and
whether `path.is_file()` holds. -/
structure DirEntry where
  name : String
  isFile : Bool
deriving DecidableEq

/-- Split a character list at the first occurrence of `target`, returning
the parts before and after it. -/
def splitFirst (target : Char) : List Char → Option (List Char × List Char)
  | [] => none
  | c :: rest =>
    if c = target then some ([], rest)
    else (splitFirst target rest).map (fun p => (c :: p.1, p.2))

/-- Rust `Path::extension()` on a file name: the part after the last `.`,
`none` when there is no `.` or the only `.` leads the name. -/
def pathExtension (name : String) : Option String :=
  match splitFirst '.' name.data.reverse with
  | none => none
  | some (revExt, revStem) =>
    if revStem.isEmpty then none else some (String.mk revExt.reverse)

/-- `VideoProcessingResult` from `batch_processor.rs` (the wall-clock
`processing_time` field is omitted, see the header). -/
structure VideoProcessingResult where
  video_path : String
  frame_count : ℕ
  audio_segments : ℕ
  synchronized_results : List SynchronizedResult
  success : Bool
  error_message : Option String
deriving DecidableEq

/-- `BatchResults` from `batch_processor.rs` (without
`total_processing_time`). -/
structure BatchResults where
  total_videos : ℕ
  successful : ℕ
  failed : ℕ
  results : List VideoProcessingResult
deriving DecidableEq

/-- Per-asset external effects: the outcome of each file-system / decoder /
backend call made while processing one video. -/
structure AssetEnv where
  /-- `fs::create_dir_all(frames_dir)`. -/
  mkFrameDir : Except String Unit
  /-- `fs::create_dir_all(audio_path.parent().unwrap())`. -/
  mkAudioDir : Except String Unit
  /-- `extract_frames(video_path, frames_dir)`: the returned timestamps. -/
  frames : Except String (List ℚ)
  /-- `frame_path.exists()` for the i-th saved frame. -/
  frameExists : ℕ → Bool
  /-- `analyzer.process_frame(frame_i, ts)` through the loaded backend. -/
  analyze : ℕ → ℚ → Except String FrameResult
  /-- `extract_audio(video_path, audio_path)`. -/
  audio : Except String Unit

/-- Whole-batch external effects. -/
structure BatchEnv where
  /-- `fs::create_dir_all(&output_dir)`. -/
  mkOutputDir : Except String Unit
  /-- `config.video_extensions`. -/
  video_extensions : List String
  /-- `config.input_dir.exists()`. -/
  inputDirExists : Bool
  /-- `fs::read_dir(&input_dir)`. -/
  readDir : Except String (List DirEntry)
  /-- `analyzer.load_model(None)` on the shared backend. -/
  load : Except String Unit
  /-- Per-asset effects, keyed by the asset path. -/
  assetEnv : String → AssetEnv
  /-- the `save_results` write of each asset's `results.json`. -/
  saveResult : String → Except String Unit
  /-- the `generate_batch_summary` write of `batch_summary.txt`. -/
  summary : Except String Unit

/-- Rust `str::to_lowercase`, character-wise (the extension strings compared
here are ASCII). -/
def lowerStr (s : String) : String := String.mk (s.data.map Char.toLower)

/-- The entry test of `find_video_files`: `path.is_file()` and the
lower-cased extension is contained in the allow-list. -/
def keepEntry (video_extensions : List String) (entry : DirEntry) : Bool :=
  entry.isFile &&
    match pathExtension entry.name with
    | some extension => video_extensions.contains (lowerStr extension)
    | none => false

/-- Lexicographic comparison of character lists by code point, the order in
which Rust compares the byte sequences of paths (UTF-8 byte order agrees
with code-point order). -/
def charsLeB : List Char → List Char → Bool
  | [], _ => true
  | _ :: _, [] => false
  | a :: as, b :: bs =>
    if a.toNat < b.toNat then true
    else if a.toNat = b.toNat then charsLeB as bs
    else false

/-- The path order used by `video_files.sort()`. -/
def strLe (a b : String) : Prop := charsLeB a.data b.data = true

instance : DecidableRel strLe := fun a b =>
  inferInstanceAs (Decidable (charsLeB a.data b.data = true))

theorem charsLeB_total : ∀ as bs, charsLeB as bs = true ∨ charsLeB bs as = true := by
  intro as
  induction as with
  | nil => intro bs; left; rfl
  | cons a tl ih =>
    intro bs
    cases bs with
    | nil => right; rfl
    | cons b bs2 =>
      rcases Nat.lt_trichotomy a.toNat b.toNat with h | h | h
      · left; simp [charsLeB, h]
      · rcases ih bs2 with h2 | h2
        · left; simp [charsLeB, h, h2]
        · right; simp [charsLeB, h.symm, h2]
      · right; simp [charsLeB, h]

theorem charsLeB_trans :
    ∀ as bs cs, charsLeB as bs = true → charsLeB bs cs = true → charsLeB as cs = true := by
  intro as
  induction as with
  | nil => intros; rfl
  | cons a tl ih =>
    intro bs cs h1 h2
    cases bs with
    | nil => simp [charsLeB] at h1
    | cons b bs2 =>
      cases cs with
      | nil => simp [charsLeB] at h2
      | cons c cs2 =>
        rw [charsLeB] at h1 h2 ⊢
        by_cases hab : a.toNat < b.toNat
        · by_cases hbc : b.toNat < c.toNat
          · simp [Nat.lt_trans hab hbc]
          · rw [if_neg hbc] at h2
            by_cases hbc2 : b.toNat = c.toNat
            · simp [hbc2 ▸ hab]
            · rw [if_neg hbc2] at h2; exact absurd h2 (by simp)
        · rw [if_neg hab] at h1
          by_cases hab2 : a.toNat = b.toNat
          · rw [if_pos hab2] at h1
            by_cases hbc : b.toNat < c.toNat
            · simp [hab2 ▸ hbc]
            · rw [if_neg hbc] at h2
              by_cases hbc2 : b.toNat = c.toNat
              · rw [if_pos hbc2] at h2
                have hac : a.toNat = c.toNat := hab2.trans hbc2
                have hlt : ¬ a.toNat < c.toNat := by omega
                rw [if_neg hlt, if_pos hac]
                exact ih bs2 cs2 h1 h2
              · rw [if_neg hbc2] at h2; exact absurd h2 (by simp)
          · rw [if_neg hab2] at h1; exact absurd h1 (by simp)

instance : IsTotal String strLe := ⟨fun a b => charsLeB_total a.data b.data⟩

instance : IsTrans String strLe := ⟨fun a b c => charsLeB_trans a.data b.data c.data⟩

/-- `find_video_files` from `batch_processor.rs`. `Vec::sort` on paths that
differ only in their final component is byte order on the file names; the
stable `Vec::sort` is modelled by the stable `List.insertionSort`. -/
def find_video_files (env : BatchEnv) : Except String (List String) :=
  if env.inputDirExists = false then
    .error "Input directory does not exist"
  else
    match env.readDir with
    | .error e => .error e
    | .ok entries =>
      let video_files := entries.foldl
        (fun acc entry =>
          if keepEntry env.video_extensions entry then acc ++ [entry.name] else acc) []
      .ok (List.insertionSort strLe video_files)

/-- The `for (i, ts) in timestamps.into_iter().enumerate()` loop of
`process_video_internal`: analyze each saved frame that exists, propagating
the first analysis failure wrapped as in the Rust `map_err`. -/
def processFrames (env : AssetEnv) : List (ℕ × ℚ) → Except String (List FrameResult)
  | [] => .ok []
  | (i, ts) :: rest =>
    if env.frameExists i then
      match env.analyze i ts with
      | .error e => .error ("Frame processing failed: " ++ e)
      | .ok fr =>
        match processFrames env rest with
        | .error e => .error e
        | .ok l => .ok (fr :: l)
    else processFrames env rest

/-- `process_video_internal` from `batch_processor.rs`. -/
def process_video_internal (env : AssetEnv) (audio_path : String) :
    Except String (List FrameResult × List AudioResult) :=
  match env.mkFrameDir with
  | .error e => .error e
  | .ok _ =>
  match env.mkAudioDir with
  | .error e => .error e
  | .ok _ =>
  match env.frames with
  | .error e => .error ("Frame extraction failed: " ++ e)
  | .ok timestamps =>
  match processFrames env timestamps.enum with
  | .error e => .error e
  | .ok frame_results =>
  match env.audio with
  | .error e => .error ("Audio extraction failed: " ++ e)
  | .ok _ =>
  match transcribe_audio audio_path with
  | .error e => .error e
  | .ok audio_results => .ok (frame_results, audio_results)

/-- `process_single_video` from `batch_processor.rs`: the outcome record,
together with the warnings printed to stderr. `save` is the outcome of the
`save_results` write of this asset's `results.json`; a failed save only
produces a warning. -/
def process_single_video (env : AssetEnv) (save : Except String Unit) (video_path : String) :
    VideoProcessingResult × List String :=
  match process_video_internal env (video_path ++ "/audio.aac") with
  | .ok (frame_results, audio_results) =>
    let synchronized_results := synchronize_results frame_results audio_results
    let warnings :=
      match save with
      | .error e => ["Warning: Failed to save results for " ++ video_path ++ ": " ++ e]
      | .ok _ => []
    (⟨video_path, synchronized_results.length,
      (synchronized_results.filter (fun r => r.audio_text.isSome)).length,
      synchronized_results, true, none⟩, warnings)
  | .error e =>
    (⟨video_path, 0, 0, [], false, some e⟩, [])

/-- One asset's outcome as folded into the batch report. -/
def assetOutcome (env : BatchEnv) (video_path : String) : VideoProcessingResult :=
  (process_single_video (env.assetEnv video_path) (env.saveResult video_path) video_path).1

/-- The `for video_path in video_files` loop of `process_batch`, with the
`results`, `successful` and `failed` accumulators explicit. -/
def batchLoop (env : BatchEnv) :
    List String → List VideoProcessingResult × ℕ × ℕ → List VideoProcessingResult × ℕ × ℕ
  | [], acc => acc
  | video_path :: rest, (results, successful, failed) =>
    if (assetOutcome env video_path).success then
      batchLoop env rest (results ++ [assetOutcome env video_path], successful + 1, failed)
    else
      batchLoop env rest (results ++ [assetOutcome env video_path], successful, failed + 1)

/-- `process_batch` from `batch_processor.rs`. `FrameAnalyzer::new("mock")`
cannot fail (`create_ml_backend` always returns `Ok`), so only the
`load_model` outcome is part of the environment. -/
def process_batch (env : BatchEnv) : Except String BatchResults :=
  match env.mkOutputDir with
  | .error e => .error e
  | .ok _ =>
  match find_video_files env with
  | .error e => .error e
  | .ok video_files =>
  if video_files.isEmpty then .ok ⟨0, 0, 0, []⟩
  else
  match env.load with
  | .error e => .error ("Failed to load ML model: " ++ e)
  | .ok _ =>
  match env.summary with
  | .error e => .error e
  | .ok _ =>
    .ok ⟨video_files.length, (batchLoop env video_files ([], 0, 0)).2.1,
         (batchLoop env video_files ([], 0, 0)).2.2, (batchLoop env video_files ([], 0, 0)).1⟩

theorem batchLoop_spec (env : BatchEnv) :
    ∀ (files : List String) (res : List VideoProcessingResult) (s f : ℕ),
      batchLoop env files (res, s, f)
        = (res ++ files.map (assetOutcome env),
           s + files.countP (fun p => (assetOutcome env p).success),
           f + files.countP (fun p => !(assetOutcome env p).success)) := by
  intro files
  induction files with
  | nil => intro res s f; simp [batchLoop]
  | cons p rest ih =>
    intro res s f
    by_cases h : (assetOutcome env p).success
    · rw [batchLoop, if_pos h, ih]
      simp [List.countP_cons, h, Prod.ext_iff]
      omega
    · rw [batchLoop, if_neg h, ih]
      simp [List.countP_cons, h, Prod.ext_iff]
      omega

theorem discovery_foldl_eq_filter (exts : List String) :
    ∀ (entries : List DirEntry) (acc : List String),
      entries.foldl
          (fun acc entry => if keepEntry exts entry then acc ++ [entry.name] else acc) acc
        = acc ++ (entries.filter (keepEntry exts)).map DirEntry.name := by
  intro entries
  induction entries with
  | nil => intro acc; simp
  | cons e rest ih =>
    intro acc
    by_cases h : keepEntry exts e
    · simp only [List.foldl_cons, h, if_pos, List.filter_cons_of_pos, List.map_cons, ih]
      simp
    · simp only [List.foldl_cons, h, if_neg, List.filter_cons_of_neg, ih]
      simp [h]

theorem string_append_ne_empty (s t : String) (hs : s.data ≠ []) : s ++ t ≠ "" := by
  intro h
  have h2 := congrArg String.data h
  rw [String.data_append] at h2
  exact hs (List.append_eq_nil.mp h2).1

theorem processFrames_error_prefixed (env : AssetEnv) :
    ∀ (l : List (ℕ × ℚ)) (e : String), processFrames env l = .error e →
      ∃ e0, e = "Frame processing failed: " ++ e0 := by
  intro l
  induction l with
  | nil => intro e h; simp [processFrames] at h
  | cons its rest ih =>
    intro e h
    rw [processFrames] at h
    by_cases hex : env.frameExists its.1
    · rw [if_pos hex] at h
      cases ha : env.analyze its.1 its.2 with
      | error e0 => rw [ha] at h; exact ⟨e0, by cases h; rfl⟩
      | ok fr =>
        rw [ha] at h
        cases hrest : processFrames env rest with
        | error e1 => rw [hrest] at h; cases h; exact ih _ hrest
        | ok l2 => rw [hrest] at h; cases h
    · rw [if_neg hex] at h
      exact ih e h

theorem process_video_internal_error_nonempty (env : AssetEnv) (audio_path : String)
    (hfd : env.mkFrameDir = .ok ()) (had : env.mkAudioDir = .ok ())
    (e : String) (herr : process_video_internal env audio_path = .error e) :
    e ≠ "" := by
  cases hfr : env.frames with
  | error e0 =>
    simp only [process_video_internal, hfd, had, hfr, Except.error.injEq] at herr
    rw [← herr]
    exact string_append_ne_empty _ _ (by decide)
  | ok timestamps =>
    cases hpf : processFrames env timestamps.enum with
    | error e1 =>
      simp only [process_video_internal, hfd, had, hfr, hpf, Except.error.injEq] at herr
      obtain ⟨e0, h2⟩ := processFrames_error_prefixed env _ e1 hpf
      rw [← herr, h2]
      exact string_append_ne_empty _ _ (by decide)
    | ok frame_results =>
      cases hau : env.audio with
      | error e2 =>
        simp only [process_video_internal, hfd, had, hfr, hpf, hau, Except.error.injEq] at herr
        rw [← herr]
        exact string_append_ne_empty _ _ (by decide)
      | ok u =>
        simp only [process_video_internal, hfd, had, hfr, hpf, hau, transcribe_audio] at herr
        exact absurd herr (by simp)

theorem countP_add_countP_not {α : Type} (p : α → Bool) :
    ∀ l : List α, l.countP p + l.countP (fun a => !p a) = l.length := by
  intro l
  induction l with
  | nil => simp
  | cons a rest ih =>
    rw [List.countP_cons, List.countP_cons]
    by_cases h : p a <;> simp [h] <;> omega

/-- C3: every batch run that returns a report reports total = number of
discovered assets, carries exactly one outcome per asset in discovery
order, and satisfies successful + failed = total; an empty discovery list
yields the all-zero report. -/
theorem c3_batch_count_identity (env : BatchEnv) (r : BatchResults)
    (hok : process_batch env = .ok r) :
    ∃ files, find_video_files env = .ok files
      ∧ r.total_videos = files.length
      ∧ r.results = files.map (assetOutcome env)
      ∧ r.results.length = files.length
      ∧ r.successful + r.failed = r.total_videos
      ∧ (files = [] → r = ⟨0, 0, 0, []⟩) := by
  cases hmk : env.mkOutputDir with
  | error e => simp [process_batch, hmk] at hok
  | ok u =>
    cases hfind : find_video_files env with
    | error e => simp [process_batch, hmk, hfind] at hok
    | ok files =>
      refine ⟨files, rfl, ?_⟩
      by_cases hemp : files.isEmpty
      · obtain rfl : files = [] := List.isEmpty_iff.mp hemp
        simp only [process_batch, hmk, hfind, List.isEmpty_nil, if_true,
          Except.ok.injEq] at hok
        subst hok
        simp
      · cases hload : env.load with
        | error e => simp [process_batch, hmk, hfind, hemp, hload] at hok
        | ok u2 =>
          cases hsum : env.summary with
          | error e => simp [process_batch, hmk, hfind, hemp, hload, hsum] at hok
          | ok u3 =>
            simp only [process_batch, hmk, hfind, hemp, if_false, Bool.false_eq_true,
              hload, hsum, Except.ok.injEq] at hok
            subst hok
            rw [batchLoop_spec]
            refine ⟨rfl, by simp, by simp, ?_, ?_⟩
            · simp only [List.nil_append, Nat.zero_add]
              exact countP_add_countP_not _ files
            · intro h
              subst h
              simp at hemp

/-- A fully successful per-asset environment (concrete fixture): two frames
at timestamps 0 and 1, one detection per frame. -/
def okAsset : AssetEnv :=
  ⟨.ok (), .ok (), .ok [0, 1], fun _ => true,
   fun _ ts => .ok ⟨ts, [("person", mkRat 9 10, (0, 0, 100, 200))]⟩, .ok ()⟩

/-- A per-asset environment whose frame extraction fails (fixture). -/
def badAsset : AssetEnv :=
  ⟨.ok (), .ok (), .error "decode error", fun _ => true, fun _ ts => .ok ⟨ts, []⟩, .ok ()⟩

/-- Fixture batch: empty input directory, all batch-level effects succeed. -/
def emptyDirEnv : BatchEnv :=
  ⟨.ok (), ["mp4"], true, .ok [], .ok (), fun _ => okAsset, fun _ => .ok (), .ok ()⟩

/-- Fixture batch: two assets, `a.mp4` failing frame extraction, `b.mp4`
succeeding; directory entries deliberately listed out of order. -/
def twoFileEnv : BatchEnv :=
  ⟨.ok (), ["mp4"], true, .ok [⟨"b.mp4", true⟩, ⟨"a.mp4", true⟩], .ok (),
   fun p => if p = "a.mp4" then badAsset else okAsset, fun _ => .ok (), .ok ()⟩

/-- C3 witness: the empty input directory yields the all-zero report
(scenario A), instantiating the count identity there. -/
theorem c3_batch_count_identity_witness :
    ∃ files, find_video_files emptyDirEnv = .ok files
      ∧ (⟨0, 0, 0, []⟩ : BatchResults).total_videos = files.length
      ∧ (⟨0, 0, 0, []⟩ : BatchResults).results = files.map (assetOutcome emptyDirEnv)
      ∧ (⟨0, 0, 0, []⟩ : BatchResults).results.length = files.length
      ∧ (⟨0, 0, 0, []⟩ : BatchResults).successful + (⟨0, 0, 0, []⟩ : BatchResults).failed
          = (⟨0, 0, 0, []⟩ : BatchResults).total_videos
      ∧ (files = [] → (⟨0, 0, 0, []⟩ : BatchResults) = ⟨0, 0, 0, []⟩) :=
  c3_batch_count_identity emptyDirEnv ⟨0, 0, 0, []⟩ (by decide)

/-- C1 (amended): in a batch run where discovery succeeds, the backend
loads, and the batch-level writes (output-directory creation and the batch
summary) succeed, `process_batch` returns `Ok` with one outcome per
discovered asset in discovery order; an asset whose pipeline fails (its
output directories having been created) gets `success = false` with a
non-empty error message, and every other asset's outcome is still present,
computed from its own environment. -/
theorem c1_failure_isolation (env : BatchEnv) (files : List String)
    (hmk : env.mkOutputDir = .ok ()) (hfind : find_video_files env = .ok files)
    (hload : env.load = .ok ()) (hsum : env.summary = .ok ()) :
    (∃ r, process_batch env = .ok r ∧ r.results = files.map (assetOutcome env)
        ∧ r.results.length = files.length)
      ∧ (∀ p ∈ files, ∀ e,
          (env.assetEnv p).mkFrameDir = .ok () → (env.assetEnv p).mkAudioDir = .ok () →
          process_video_internal (env.assetEnv p) (p ++ "/audio.aac") = .error e →
          (assetOutcome env p).success = false
            ∧ (assetOutcome env p).error_message = some e ∧ e ≠ "") := by
  constructor
  · by_cases hemp : files.isEmpty
    · obtain rfl := List.isEmpty_iff.mp hemp
      refine ⟨⟨0, 0, 0, []⟩, ?_, by simp, by simp⟩
      simp [process_batch, hmk, hfind]
    · have hemp2 : files.isEmpty = false := by simpa using hemp
      have hpb : process_batch env
          = .ok ⟨files.length, (batchLoop env files ([], 0, 0)).2.1,
                 (batchLoop env files ([], 0, 0)).2.2, (batchLoop env files ([], 0, 0)).1⟩ := by
        simp [process_batch, hmk, hfind, hemp2, hload, hsum]
      refine ⟨_, hpb, ?_, ?_⟩
      · rw [batchLoop_spec]; simp
      · rw [batchLoop_spec]; simp
  · intro p hp e h1 h2 h3
    refine ⟨?_, ?_, process_video_internal_error_nonempty _ _ h1 h2 e h3⟩
    · simp [assetOutcome, process_single_video, h3]
    · simp [assetOutcome, process_single_video, h3]

/-- C1 witness: two assets, one failing frame extraction — the batch still
returns one outcome per asset and the failed asset carries a non-empty
error (scenario B). -/
theorem c1_failure_isolation_witness :
    find_video_files twoFileEnv = .ok ["a.mp4", "b.mp4"]
      ∧ ((∃ r, process_batch twoFileEnv = .ok r
            ∧ r.results = ["a.mp4", "b.mp4"].map (assetOutcome twoFileEnv)
            ∧ r.results.length = ["a.mp4", "b.mp4"].length)
        ∧ (∀ p ∈ ["a.mp4", "b.mp4"], ∀ e,
            (twoFileEnv.assetEnv p).mkFrameDir = .ok () →
            (twoFileEnv.assetEnv p).mkAudioDir = .ok () →
            process_video_internal (twoFileEnv.assetEnv p) (p ++ "/audio.aac") = .error e →
            (assetOutcome twoFileEnv p).success = false
              ∧ (assetOutcome twoFileEnv p).error_message = some e ∧ e ≠ "")) :=
  ⟨by decide, c1_failure_isolation twoFileEnv ["a.mp4", "b.mp4"] rfl (by decide) rfl rfl⟩

/-- Fixture: discovery succeeds with one asset that fails frame extraction,
the backend loads, but the batch-summary write fails. -/
def cxSummaryEnv : BatchEnv :=
  ⟨.ok (), ["mp4"], true, .ok [⟨"a.mp4", true⟩], .ok (),
   fun _ => badAsset, fun _ => .ok (), .error "summary write failed"⟩

/-- C1 counterexample: discovery succeeded, the backend loaded, and the one
asset failed at frame extraction, yet `process_batch` returns an error (not
`Ok`) because the batch-summary write fails; the claim as stated is false. -/
theorem c1_failure_isolation_cx :
    find_video_files cxSummaryEnv = .ok ["a.mp4"]
      ∧ cxSummaryEnv.load = .ok ()
      ∧ process_video_internal (cxSummaryEnv.assetEnv "a.mp4") "a.mp4/audio.aac"
          = .error "Frame extraction failed: decode error"
      ∧ process_batch cxSummaryEnv = .error "summary write failed" :=
  ⟨by decide, rfl, by decide, by decide⟩

/-- C5 (amended): a failure to write an asset's `results.json` is only a
warning — the asset's outcome is independent of the save outcome, and when
the analysis succeeded but the save failed a warning is logged; however a
failure to write the batch summary document aborts `process_batch` with an
error instead of returning the report (without altering any asset's
already-determined outcome, which is simply discarded). -/
theorem c5_persistence_warnings (env : AssetEnv) (video_path : String)
    (sv sv' : Except String Unit) :
    (process_single_video env sv video_path).1 = (process_single_video env sv' video_path).1
      ∧ (∀ e frs ars, process_video_internal env (video_path ++ "/audio.aac") = .ok (frs, ars) →
          (process_single_video env (.error e) video_path).2
            = ["Warning: Failed to save results for " ++ video_path ++ ": " ++ e])
      ∧ (∀ (benv : BatchEnv) (e : String) (files : List String),
          benv.mkOutputDir = .ok () → find_video_files benv = .ok files →
          files.isEmpty = false → benv.load = .ok () → benv.summary = .error e →
          process_batch benv = .error e) := by
  refine ⟨?_, ?_, ?_⟩
  · cases h : process_video_internal env (video_path ++ "/audio.aac") <;>
      simp [process_single_video, h]
  · intro e frs ars h
    simp [process_single_video, h]
  · intro benv e files h1 h2 h3 h4 h5
    simp [process_batch, h1, h2, h3, h4, h5]

/-- C5 witness: on a fully successful asset the outcome with a failed save
equals the outcome with a successful save. -/
theorem c5_persistence_warnings_witness :
    (process_single_video okAsset (.error "disk full") "v").1
      = (process_single_video okAsset (.ok ()) "v").1 :=
  (c5_persistence_warnings okAsset "v" (.error "disk full") (.ok ())).1

/-- Fixture: a batch whose single asset fully succeeds but whose
batch-summary write fails. -/
def cxSummaryOkEnv : BatchEnv :=
  ⟨.ok (), ["mp4"], true, .ok [⟨"a.mp4", true⟩], .ok (),
   fun _ => okAsset, fun _ => .ok (), .error "summary disk full"⟩

/-- C5 counterexample: the asset's analysis completed (its outcome says
success), the only persistence failure is the batch-summary write, yet
`process_batch` returns an error instead of the report; the claim as stated
is false. -/
theorem c5_persistence_warnings_cx :
    (assetOutcome cxSummaryOkEnv "a.mp4").success = true
      ∧ process_batch cxSummaryOkEnv = .error "summary disk full" :=
  ⟨by decide, by decide⟩

theorem process_video_internal_spans (env : AssetEnv) (audio_path : String)
    (frs : List FrameResult) (ars : List AudioResult)
    (h : process_video_internal env audio_path = .ok (frs, ars)) :
    ars = [⟨0, 5, "Hello, this is a sample transcription"⟩,
           ⟨5, 10, "This demonstrates audio processing capabilities"⟩] := by
  cases hfd : env.mkFrameDir with
  | error e => simp [process_video_internal, hfd] at h
  | ok u1 =>
    cases had : env.mkAudioDir with
    | error e => simp [process_video_internal, hfd, had] at h
    | ok u2 =>
      cases hfr : env.frames with
      | error e => simp [process_video_internal, hfd, had, hfr] at h
      | ok ts =>
        cases hpf : processFrames env ts.enum with
        | error e => simp [process_video_internal, hfd, had, hfr, hpf] at h
        | ok f2 =>
          cases hau : env.audio with
          | error e => simp [process_video_internal, hfd, had, hfr, hpf, hau] at h
          | ok u3 =>
            simp only [process_video_internal, hfd, had, hfr, hpf, hau, transcribe_audio,
              Except.ok.injEq, Prod.mk.injEq] at h
            exact h.2.symm

theorem stub_transcript_isSome (t : ℚ) :
    (transcriptFor [⟨0, 5, "Hello, this is a sample transcription"⟩,
        ⟨5, 10, "This demonstrates audio processing capabilities"⟩] t).isSome
      = decide (0 ≤ t ∧ t ≤ 10) := by
  by_cases h1 : (0 : ℚ) ≤ t ∧ t ≤ 5
  · rw [transcriptFor, List.find?_cons_of_pos _ (by simpa [spanHit] using h1)]
    simp only [Option.map_some', Option.isSome_some]
    have h3 : (0 : ℚ) ≤ t ∧ t ≤ 10 := ⟨h1.1, le_trans h1.2 (by norm_num)⟩
    simp [h3]
  · by_cases h2 : (5 : ℚ) ≤ t ∧ t ≤ 10
    · rw [transcriptFor, List.find?_cons_of_neg _ (by simpa [spanHit] using h1),
        List.find?_cons_of_pos _ (by simpa [spanHit] using h2)]
      simp only [Option.map_some', Option.isSome_some]
      have h3 : (0 : ℚ) ≤ t ∧ t ≤ 10 := ⟨le_trans (by norm_num) h2.1, h2.2⟩
      simp [h3]
    · rw [transcriptFor, List.find?_cons_of_neg _ (by simpa [spanHit] using h1),
        List.find?_cons_of_neg _ (by simpa [spanHit] using h2)]
      simp only [List.find?_nil, Option.map_none', Option.isSome_none]
      have h3 : ¬((0 : ℚ) ≤ t ∧ t ≤ 10) := by
        rintro ⟨ha, hb⟩
        rcases le_or_lt t 5 with hc | hc
        · exact h1 ⟨ha, hc⟩
        · exact h2 ⟨le_of_lt hc, hb⟩
      simp [h3]

theorem countP_congr_eq {α : Type} (p q : α → Bool) :
    ∀ l : List α, (∀ a ∈ l, p a = q a) → l.countP p = l.countP q := by
  intro l
  induction l with
  | nil => intro h; rfl
  | cons a rest ih =>
    intro h
    rw [List.countP_cons, List.countP_cons, h a (by simp), ih (fun b hb => h b (by simp [hb]))]

/-- C10: `transcribe_audio` is a constant stub: for every audio path it
returns `Ok` with exactly the two fixed spans `(0, 5)` and `(5, 10)` and
never errors; consequently a successful asset's audio segment count equals
the number of its frames with timestamp in `[0, 10]`. -/
theorem c10_transcriber_stub (audio_path : String) (env : AssetEnv)
    (save : Except String Unit) (video_path : String)
    (frs : List FrameResult) (ars : List AudioResult)
    (hok : process_video_internal env (video_path ++ "/audio.aac") = .ok (frs, ars)) :
    transcribe_audio audio_path
        = .ok [⟨0, 5, "Hello, this is a sample transcription"⟩,
               ⟨5, 10, "This demonstrates audio processing capabilities"⟩]
      ∧ (process_single_video env save video_path).1.success = true
      ∧ (process_single_video env save video_path).1.audio_segments
          = (frs.filter (fun f => decide (0 ≤ f.timestamp ∧ f.timestamp ≤ 10))).length := by
  obtain rfl := process_video_internal_spans env _ frs ars hok
  refine ⟨rfl, ?_, ?_⟩
  · simp [process_single_video, hok]
  · simp only [process_single_video, hok]
    rw [synchronize_results_eq_map, ← List.countP_eq_length_filter,
      ← List.countP_eq_length_filter, List.countP_map]
    exact countP_congr_eq _ _ frs (fun f _ => stub_transcript_isSome f.timestamp)

/-- C10 witness: the fully successful fixture asset has two frames, at
timestamps 0 and 1, both inside `[0, 10]`, and its audio segment count is
computed accordingly. -/
theorem c10_transcriber_stub_witness :
    transcribe_audio "x.aac"
        = .ok [⟨0, 5, "Hello, this is a sample transcription"⟩,
               ⟨5, 10, "This demonstrates audio processing capabilities"⟩]
      ∧ (process_single_video okAsset (.ok ()) "v").1.success = true
      ∧ (process_single_video okAsset (.ok ()) "v").1.audio_segments
          = (([⟨0, [("person", mkRat 9 10, (0, 0, 100, 200))]⟩,
               ⟨1, [("person", mkRat 9 10, (0, 0, 100, 200))]⟩] : List FrameResult).filter
              (fun f => decide (0 ≤ f.timestamp ∧ f.timestamp ≤ 10))).length :=
  c10_transcriber_stub "x.aac" okAsset (.ok ()) "v"
    [⟨0, [("person", mkRat 9 10, (0, 0, 100, 200))]⟩,
     ⟨1, [("person", mkRat 9 10, (0, 0, 100, 200))]⟩]
    [⟨0, 5, "Hello, this is a sample transcription"⟩,
     ⟨5, 10, "This demonstrates audio processing capabilities"⟩] (by decide)

/-- The optional compiled-in backends: the `#[cfg(feature = ...)]` gates of
`ml_backend.rs`. -/
structure Features where
  pytorch : Bool
  onnx : Bool
  candle : Bool
deriving DecidableEq

/-- The backend variants of `ml_backend.rs`; `Box<dyn MLBackend>` values are
modelled by this kind together with `backend_name`. -/
inductive MLBackendKind where
  | mock
  | pytorch
  | onnx
  | candle
deriving DecidableEq

/-- `backend_name()` of each variant. The ONNX and Candle strings are from
`ml_backend.rs`. Modelled from the spec: the `MockMLBackend` and
`PyTorchBackend` definitions are not under `src/` (only their uses are); the
spec says `name()` of the mock reports its fixed diagnostic identifier, so
the mock (and pytorch) strings are model placeholders for that identifier. -/
def MLBackendKind.backend_name : MLBackendKind → String
  | .mock => "Mock ML Backend"
  | .pytorch => "PyTorch ML Backend"
  | .onnx => "ONNX Runtime Backend"
  | .candle => "Candle ML Backend"

/-- `create_ml_backend` from `ml_backend.rs`: always `Ok`; the `Bool` of the
result records whether the unknown-backend warning was printed. -/
def create_ml_backend (feat : Features) (backend_type : String) :
    Except String (MLBackendKind × Bool) :=
  if lowerStr backend_type = "mock" then .ok (.mock, false)
  else if feat.pytorch ∧ lowerStr backend_type = "pytorch" then .ok (.pytorch, false)
  else if feat.onnx ∧ lowerStr backend_type = "onnx" then .ok (.onnx, false)
  else if feat.candle ∧ lowerStr backend_type = "candle" then .ok (.candle, false)
  else .ok (.mock, true)

/-- C4: `create_ml_backend` never returns an error; each recognized
(compiled-in) name selects its variant without warning; an unrecognized
name substitutes the mock backend with a warning, and the fallback's
`backend_name` is the mock identifier. -/
theorem c4_backend_selection (feat : Features) (backend_type : String) :
    (∃ k warned, create_ml_backend feat backend_type = .ok (k, warned))
      ∧ (lowerStr backend_type = "mock" →
          create_ml_backend feat backend_type = .ok (.mock, false))
      ∧ (feat.pytorch = true → lowerStr backend_type = "pytorch" →
          create_ml_backend feat backend_type = .ok (.pytorch, false))
      ∧ (feat.onnx = true → lowerStr backend_type = "onnx" →
          create_ml_backend feat backend_type = .ok (.onnx, false))
      ∧ (feat.candle = true → lowerStr backend_type = "candle" →
          create_ml_backend feat backend_type = .ok (.candle, false))
      ∧ (¬(lowerStr backend_type = "mock") →
         ¬(feat.pytorch = true ∧ lowerStr backend_type = "pytorch") →
         ¬(feat.onnx = true ∧ lowerStr backend_type = "onnx") →
         ¬(feat.candle = true ∧ lowerStr backend_type = "candle") →
          create_ml_backend feat backend_type = .ok (.mock, true)
            ∧ MLBackendKind.backend_name .mock = "Mock ML Backend") := by
  refine ⟨?_, ?_, ?_, ?_, ?_, ?_⟩
  · unfold create_ml_backend
    by_cases h1 : lowerStr backend_type = "mock"
    · exact ⟨.mock, false, by simp [h1]⟩
    · by_cases h2 : feat.pytorch = true ∧ lowerStr backend_type = "pytorch"
      · exact ⟨.pytorch, false, by simp [h1, h2]⟩
      · by_cases h3 : feat.onnx = true ∧ lowerStr backend_type = "onnx"
        · exact ⟨.onnx, false, by simp [h1, h2, h3]⟩
        · by_cases h4 : feat.candle = true ∧ lowerStr backend_type = "candle"
          · exact ⟨.candle, false, by simp [h1, h2, h3, h4]⟩
          · exact ⟨.mock, true, by simp [h1, h2, h3, h4]⟩
  · intro h1; simp [create_ml_backend, h1]
  · intro hf h1
    have hm : ¬(lowerStr backend_type = "mock") := by simp [h1]
    simp [create_ml_backend, hm, h1, hf]
  · intro hf h1
    have hm : ¬(lowerStr backend_type = "mock") := by simp [h1]
    have hp : ¬(feat.pytorch = true ∧ lowerStr backend_type = "pytorch") := by simp [h1]
    simp [create_ml_backend, hm, hp, h1, hf]
  · intro hf h1
    have hm : ¬(lowerStr backend_type = "mock") := by simp [h1]
    have hp : ¬(feat.pytorch = true ∧ lowerStr backend_type = "pytorch") := by simp [h1]
    have ho : ¬(feat.onnx = true ∧ lowerStr backend_type = "onnx") := by simp [h1]
    simp [create_ml_backend, hm, hp, ho, h1, hf]
  · intro h1 h2 h3 h4
    exact ⟨by simp [create_ml_backend, h1, h2, h3, h4], rfl⟩

/-- C4 witness: scenario E — the unrecognized name `"foo"` yields the mock
backend with a warning and no error, and `name()` reports the mock
identifier. -/
theorem c4_backend_selection_witness :
    create_ml_backend ⟨true, true, true⟩ "foo" = .ok (.mock, true)
      ∧ MLBackendKind.backend_name .mock = "Mock ML Backend" :=
  (c4_backend_selection ⟨true, true, true⟩ "foo").2.2.2.2.2
    (by decide) (by decide) (by decide) (by decide)

/-- C8: `find_video_files` errors when the input directory does not exist —
and then `process_batch` returns an error, before any asset is processed —
and on success returns exactly the regular files whose lower-cased
extension is in the allow-list, sorted lexicographically by path. -/
theorem c8_discovery (env : BatchEnv) :
    (env.inputDirExists = false →
        find_video_files env = .error "Input directory does not exist"
          ∧ ∃ e2, process_batch env = .error e2)
      ∧ (∀ entries files, env.readDir = .ok entries →
          find_video_files env = .ok files →
          List.Sorted strLe files
            ∧ files.Perm ((entries.filter (keepEntry env.video_extensions)).map DirEntry.name)) := by
  constructor
  · intro hdir
    have hfind : find_video_files env = .error "Input directory does not exist" := by
      simp [find_video_files, hdir]
    refine ⟨hfind, ?_⟩
    cases hmk : env.mkOutputDir with
    | error e => exact ⟨e, by simp [process_batch, hmk]⟩
    | ok u =>
      exact ⟨"Input directory does not exist", by simp [process_batch, hmk, hfind]⟩
  · intro entries files hrd hfind
    by_cases hdir : env.inputDirExists = false
    · simp [find_video_files, hdir] at hfind
    · simp only [find_video_files, hrd] at hfind
      rw [if_neg hdir] at hfind
      simp only [Except.ok.injEq] at hfind
      subst hfind
      rw [discovery_foldl_eq_filter, List.nil_append]
      exact ⟨List.sorted_insertionSort strLe _,
        List.perm_insertionSort strLe _⟩

/-- Fixture batch whose input directory does not exist. -/
def noDirEnv : BatchEnv :=
  ⟨.ok (), ["mp4"], false, .ok [], .ok (), fun _ => okAsset, fun _ => .ok (), .ok ()⟩

/-- C8 witness: a missing input directory makes discovery fail and the whole
batch abort with an error. -/
theorem c8_discovery_witness :
    find_video_files noDirEnv = .error "Input directory does not exist"
      ∧ ∃ e2, process_batch noDirEnv = .error e2 :=
  (c8_discovery noDirEnv).1 rfl

/-- One demuxed packet as seen by the `for (stream, packet) in ictx.packets()`
loop of `extract_frames`: its stream index, its presentation timestamp
(`packet.pts()`), and the number of pictures `receive_frame` delivers after
this packet is sent. -/
structure FFPacket where
  stream : ℕ
  pts : Option ℤ
  frames : ℕ
deriving DecidableEq

/-- The decoder-side environment of `extract_frames`: the best video stream
(`none` models `StreamNotFound`) with its index and time base
numerator/denominator, the packet sequence, and an optional
decode/scale/save failure that aborts the whole extraction. -/
structure VideoEnv where
  stream : Option (ℕ × ℤ × ℤ)
  packets : List FFPacket
  decodeFail : Option String
deriving DecidableEq

/-- The timestamp computed for pictures received while packet `p` is in
hand: `packet.pts().unwrap_or(0) as f64 * numerator as f64 / denominator as f64`. -/
def packetTs (p : FFPacket) (num den : ℤ) : ℚ :=
  ((p.pts.getD 0 : ℤ) : ℚ) * (num : ℚ) / (den : ℚ)

/-- The packet loop of `extract_frames`, with the `timestamps` accumulator
explicit: each packet of the selected stream pushes one timestamp per
received picture. -/
def frameLoop (idx : ℕ) (num den : ℤ) : List FFPacket → List ℚ → List ℚ
  | [], acc => acc
  | p :: rest, acc =>
    if p.stream = idx then
      frameLoop idx num den rest (acc ++ List.replicate p.frames (packetTs p num den))
    else frameLoop idx num den rest acc

/-- `extract_frames` from `video_processor.rs`. -/
def extract_frames (env : VideoEnv) : Except String (List ℚ) :=
  match env.stream with
  | none => .error "StreamNotFound"
  | some (idx, num, den) =>
    match env.decodeFail with
    | some e => .error e
    | none => .ok (frameLoop idx num den env.packets [])

theorem frameLoop_append (idx : ℕ) (num den : ℤ) :
    ∀ (pk : List FFPacket) (acc : List ℚ),
      frameLoop idx num den pk acc
        = acc ++ ((pk.filter (fun p => decide (p.stream = idx))).map
            (fun p => List.replicate p.frames (packetTs p num den))).flatten := by
  intro pk
  induction pk with
  | nil => intro acc; simp [frameLoop]
  | cons p rest ih =>
    intro acc
    by_cases h : p.stream = idx
    · rw [frameLoop, if_pos h, ih]
      simp [h]
    · rw [frameLoop, if_neg h, ih]
      simp [h]

theorem pairwise_le_replicate (n : ℕ) (x : ℚ) :
    List.Pairwise (· ≤ ·) (List.replicate n x) := by
  induction n with
  | zero => simp
  | succ m ih =>
    rw [List.replicate_succ, List.pairwise_cons]
    exact ⟨fun y hy => (List.eq_of_mem_replicate hy) ▸ le_refl x, ih⟩

theorem pairwise_flatten_replicate (g : FFPacket → ℚ) (cnt : FFPacket → ℕ) :
    ∀ l : List FFPacket, List.Pairwise (· ≤ ·) (l.map g) →
      List.Pairwise (· ≤ ·) ((l.map (fun p => List.replicate (cnt p) (g p))).flatten) := by
  intro l
  induction l with
  | nil => intro h; simp
  | cons p rest ih =>
    intro h
    rw [List.map_cons, List.pairwise_cons] at h
    rw [List.map_cons, List.flatten_cons, List.pairwise_append]
    refine ⟨pairwise_le_replicate _ _, ih h.2, ?_⟩
    intro a ha b hb
    obtain rfl := List.eq_of_mem_replicate ha
    rw [List.mem_flatten] at hb
    obtain ⟨blk, hblk, hbmem⟩ := hb
    rw [List.mem_map] at hblk
    obtain ⟨q, hq, rfl⟩ := hblk
    obtain rfl := List.eq_of_mem_replicate hbmem
    exact h.1 (g q) (List.mem_map_of_mem g hq)

/-- C6 (amended): when frame extraction succeeds, `extract_frames` returns
one timestamp per decoded picture (so `frame_count` equals the number of
pictures the decoder delivered), each computed as
`pts.unwrap_or(0) × stream_time_base` from the packet being decoded; the
returned list is non-decreasing provided the packet pts values of the
selected stream are non-decreasing in decode order and the time base is
non-negative — the code itself never sorts or enforces monotonicity. -/
theorem c6_frame_timestamps (env : VideoEnv) (idx : ℕ) (num den : ℤ) (ts : List ℚ)
    (hstream : env.stream = some (idx, num, den))
    (hok : extract_frames env = .ok ts) :
    ts.length = ((env.packets.filter (fun p => decide (p.stream = idx))).map
          (fun p => p.frames)).sum
      ∧ ts = ((env.packets.filter (fun p => decide (p.stream = idx))).map
          (fun p => List.replicate p.frames (packetTs p num den))).flatten
      ∧ (0 ≤ (num : ℚ) / (den : ℚ) →
          List.Pairwise (· ≤ ·)
            ((env.packets.filter (fun p => decide (p.stream = idx))).map
              (fun p => ((p.pts.getD 0 : ℤ) : ℚ))) →
          List.Pairwise (· ≤ ·) ts) := by
  cases hdf : env.decodeFail with
  | some e => simp [extract_frames, hstream, hdf] at hok
  | none =>
    simp only [extract_frames, hstream, hdf, Except.ok.injEq] at hok
    subst hok
    rw [frameLoop_append, List.nil_append]
    refine ⟨?_, rfl, ?_⟩
    · rw [List.length_flatten, List.map_map]
      congr 1
      apply List.map_congr_left
      intro p hp
      simp
    · intro hc hmono
      apply pairwise_flatten_replicate (fun p => packetTs p num den) (fun p => p.frames)
      rw [List.pairwise_map] at hmono ⊢
      refine hmono.imp ?_
      intro a b hab
      unfold packetTs
      rw [mul_div_assoc, mul_div_assoc]
      exact mul_le_mul_of_nonneg_right hab hc

/-- Fixture: a stream whose two packets carry decreasing pts in decode
order (as B-frame reordering produces), one picture each. -/
def reorderedEnv : VideoEnv :=
  ⟨some (0, 1, 1), [⟨0, some 10, 1⟩, ⟨0, some 5, 1⟩], none⟩

/-- C6 counterexample: a successful extraction returning `[10, 5]`, which is
not non-decreasing — the code uses decode-order packet pts and never sorts,
so the monotonicity part of the claim is false. -/
theorem c6_frame_timestamps_cx :
    extract_frames reorderedEnv = .ok [(10 : ℚ), 5]
      ∧ ¬ List.Pairwise (· ≤ ·) [(10 : ℚ), 5] := by
  constructor
  · show extract_frames reorderedEnv = .ok [(10 : ℚ), 5]
    simp [extract_frames, reorderedEnv, frameLoop, packetTs]
  · decide

/-- Fixture: a stream whose packets carry non-decreasing pts, delivering
two pictures then one. -/
def sortedEnv : VideoEnv :=
  ⟨some (0, 1, 1), [⟨0, some 2, 2⟩, ⟨0, some 7, 1⟩], none⟩

/-- C6 witness: on a stream with non-decreasing packet pts and unit time
base, the returned timestamps `[2, 2, 7]` are non-decreasing. -/
theorem c6_frame_timestamps_witness :
    extract_frames sortedEnv = .ok [(2 : ℚ), 2, 7]
      ∧ List.Pairwise (· ≤ ·) [(2 : ℚ), 2, 7] := by
  have hok : extract_frames sortedEnv = .ok [(2 : ℚ), 2, 7] := by
    simp [extract_frames, sortedEnv, frameLoop, packetTs]
  refine ⟨hok, ?_⟩
  refine (c6_frame_timestamps sortedEnv 0 1 1 _ rfl hok).2.2 (by norm_num) ?_
  show List.Pairwise (· ≤ ·)
    ((sortedEnv.packets.filter (fun p => decide (p.stream = 0))).map
      (fun p => ((p.pts.getD 0 : ℤ) : ℚ)))
  norm_num [sortedEnv]

/-! JSON codec for the persisted `results.json` (C7). `save_results` in
`batch_processor.rs` writes the document by hand with `writeln!`; below the
document is the exact character stream it writes, except number formatting:
Rust prints `f64`/`f32` with `Display`, a shortest-round-trip decimal
rendering that is inherently floating point, so in this `ℚ` model numbers
are rendered by the injective `ratChars` (numerator, `/`, denominator) with
a matching reader — preserving what the round-trip claim uses from numbers,
an injective rendering re-read exactly. String fields are rendered exactly
as the code renders them: labels unescaped, `audio_text` with only `"`
escaped. -/

def digitChar (d : ℕ) : Char := Char.ofNat (48 + d)

def isDigitCh (c : Char) : Bool := decide (48 ≤ c.toNat) && decide (c.toNat ≤ 57)

def charVal (c : Char) : ℕ := c.toNat - 48

def isNumCh (c : Char) : Bool := isDigitCh c || c == '-' || c == '/'

/-- Little-endian base-10 digits, with structural fuel. -/
def natDigitsAux : ℕ → ℕ → List ℕ
  | 0, _ => []
  | _ + 1, 0 => []
  | fuel + 1, n + 1 => ((n + 1) % 10) :: natDigitsAux fuel ((n + 1) / 10)

def digitsVal : List ℕ → ℕ
  | [] => 0
  | d :: l => d + 10 * digitsVal l

def natChars (n : ℕ) : List Char :=
  if n = 0 then ['0'] else (natDigitsAux n n).reverse.map digitChar

def parseNatChars (l : List Char) : Option ℕ :=
  if !l.isEmpty && l.all isDigitCh then some (digitsVal ((l.map charVal).reverse)) else none

def intChars (i : ℤ) : List Char :=
  if i < 0 then '-' :: natChars i.natAbs else natChars i.natAbs

def parseIntChars (l : List Char) : Option ℤ :=
  match l with
  | [] => none
  | c :: rest =>
    if c = '-' then (parseNatChars rest).map (fun n => -(Int.ofNat n))
    else (parseNatChars l).map (fun n => Int.ofNat n)

def ratChars (q : ℚ) : List Char := intChars q.num ++ '/' :: natChars q.den

def parseRatChars (l : List Char) : Option ℚ :=
  match splitFirst '/' l with
  | none => none
  | some (a, b) =>
    match parseIntChars a, parseNatChars b with
    | some i, some n => some ((i : ℚ) / (n : ℚ))
    | _, _ => none

/-- The number reader of the document grammar: take the maximal run of
number characters and decode it. -/
def readRat (l : List Char) : Option (ℚ × List Char) :=
  match parseRatChars (l.takeWhile isNumCh) with
  | some q => some (q, l.dropWhile isNumCh)
  | none => none

theorem natDigitsAux_val : ∀ fuel n, n ≤ fuel → digitsVal (natDigitsAux fuel n) = n := by
  intro fuel
  induction fuel with
  | zero => intro n hn; interval_cases n; rfl
  | succ f ih =>
    intro n hn
    cases n with
    | zero => rfl
    | succ m =>
      rw [natDigitsAux, digitsVal]
      have hdiv : (m + 1) / 10 ≤ f := by
        have := Nat.div_lt_self (Nat.succ_pos m) (by norm_num : 1 < 10)
        omega
      rw [ih _ hdiv]
      omega

theorem natDigitsAux_lt : ∀ fuel n d, d ∈ natDigitsAux fuel n → d < 10 := by
  intro fuel
  induction fuel with
  | zero => intro n d hd; simp [natDigitsAux] at hd
  | succ f ih =>
    intro n d hd
    cases n with
    | zero => simp [natDigitsAux] at hd
    | succ m =>
      rw [natDigitsAux] at hd
      rcases List.mem_cons.mp hd with h | h
      · have h10 : (m + 1) % 10 < 10 := Nat.mod_lt _ (by norm_num)
        exact h ▸ h10
      · exact ih _ d h

theorem digitChar_digit {d : ℕ} (hd : d < 10) : isDigitCh (digitChar d) = true := by
  interval_cases d <;> decide

theorem charVal_digitChar {d : ℕ} (hd : d < 10) : charVal (digitChar d) = d := by
  interval_cases d <;> decide

theorem natChars_ne_nil (n : ℕ) : natChars n ≠ [] := by
  unfold natChars
  by_cases h : n = 0
  · simp [h]
  · rw [if_neg h]
    intro hemp
    rw [List.map_eq_nil_iff, List.reverse_eq_nil_iff] at hemp
    have hv := natDigitsAux_val n n le_rfl
    rw [hemp] at hv
    exact h (by simpa [digitsVal] using hv.symm)

theorem natChars_all_digit (n : ℕ) : ∀ c ∈ natChars n, isDigitCh c = true := by
  intro c hc
  unfold natChars at hc
  by_cases h : n = 0
  · rw [if_pos h] at hc
    simp at hc
    subst hc
    decide
  · rw [if_neg h, List.mem_map] at hc
    obtain ⟨d, hd, rfl⟩ := hc
    exact digitChar_digit (natDigitsAux_lt n n d (List.mem_reverse.mp hd))

theorem parseNat_natChars (n : ℕ) : parseNatChars (natChars n) = some n := by
  by_cases h : n = 0
  · subst h; decide
  · have hne : (natChars n).isEmpty = false := by
      cases hx : natChars n with
      | nil => exact absurd hx (natChars_ne_nil n)
      | cons a l => rfl
    have hall : (natChars n).all isDigitCh = true := by
      rw [List.all_eq_true]
      exact natChars_all_digit n
    rw [parseNatChars, if_pos (by rw [hne, hall]; rfl)]
    congr 1
    have hcong : ∀ l : List ℕ, (∀ d ∈ l, d < 10) → (l.map digitChar).map charVal = l := by
      intro l hl
      rw [List.map_map]
      have h2 : l.map (charVal ∘ digitChar) = l.map id :=
        List.map_congr_left (fun d hd => charVal_digitChar (hl d hd))
      rw [h2, List.map_id]
    rw [natChars, if_neg h]
    rw [hcong _ (fun d hd => natDigitsAux_lt n n d (List.mem_reverse.mp hd))]
    rw [List.reverse_reverse]
    exact natDigitsAux_val n n le_rfl

theorem digit_ne_dash {c : Char} (hc : isDigitCh c = true) : c ≠ '-' := by
  intro h
  rw [h] at hc
  exact absurd hc (by decide)

theorem digit_ne_slash {c : Char} (hc : isDigitCh c = true) : c ≠ '/' := by
  intro h
  rw [h] at hc
  exact absurd hc (by decide)

theorem parseInt_intChars (i : ℤ) : parseIntChars (intChars i) = some i := by
  by_cases h : i < 0
  · rw [intChars, if_pos h]
    have harm : parseIntChars ('-' :: natChars i.natAbs)
        = (parseNatChars (natChars i.natAbs)).map (fun n => -(Int.ofNat n)) := by
      simp [parseIntChars]
    rw [harm, parseNat_natChars, Option.map_some']
    congr 1
    simp only [Int.ofNat_eq_coe]
    omega
  · rw [intChars, if_neg h]
    cases hx : natChars i.natAbs with
    | nil => exact absurd hx (natChars_ne_nil _)
    | cons c rest =>
      have hd : isDigitCh c = true := natChars_all_digit _ c (by rw [hx]; simp)
      have harm : parseIntChars (c :: rest)
          = (parseNatChars (c :: rest)).map (fun n => Int.ofNat n) := by
        simp only [parseIntChars]
        rw [if_neg (digit_ne_dash hd)]
      rw [harm, ← hx, parseNat_natChars, Option.map_some']
      congr 1
      simp only [Int.ofNat_eq_coe]
      omega

theorem splitFirst_append (t : Char) :
    ∀ (a b : List Char), (∀ c ∈ a, c ≠ t) → splitFirst t (a ++ t :: b) = some (a, b) := by
  intro a
  induction a with
  | nil => intro b h; simp [splitFirst]
  | cons c a2 ih =>
    intro b h
    rw [List.cons_append, splitFirst, if_neg ?_]
    · rw [ih b (fun x hx => h x (by simp [hx]))]
      rfl
    · exact h c (by simp)

theorem intChars_no_slash (i : ℤ) : ∀ c ∈ intChars i, c ≠ '/' := by
  intro c hc
  unfold intChars at hc
  by_cases h : i < 0
  · rw [if_pos h] at hc
    rcases List.mem_cons.mp hc with rfl | hc2
    · decide
    · exact digit_ne_slash (natChars_all_digit _ c hc2)
  · rw [if_neg h] at hc
    exact digit_ne_slash (natChars_all_digit _ c hc)

theorem parseRat_ratChars (q : ℚ) : parseRatChars (ratChars q) = some q := by
  rw [ratChars]
  simp only [parseRatChars,
    splitFirst_append '/' (intChars q.num) (natChars q.den) (intChars_no_slash q.num),
    parseInt_intChars, parseNat_natChars]
  rw [Rat.num_div_den]

theorem takeWhile_append_all (p : Char → Bool) :
    ∀ (a : List Char) (c : Char) (r : List Char), (∀ x ∈ a, p x = true) → p c = false →
      (a ++ c :: r).takeWhile p = a ∧ (a ++ c :: r).dropWhile p = c :: r := by
  intro a
  induction a with
  | nil =>
    intro c r ha hc
    constructor
    · rw [List.nil_append, List.takeWhile_cons, hc]; simp
    · rw [List.nil_append, List.dropWhile_cons, hc]; simp
  | cons x a2 ih =>
    intro c r ha hc
    have hx : p x = true := ha x (by simp)
    have ih2 := ih c r (fun y hy => ha y (by simp [hy])) hc
    constructor
    · rw [List.cons_append, List.takeWhile_cons, hx, ih2.1]; simp
    · rw [List.cons_append, List.dropWhile_cons, hx, ih2.2]; simp

theorem ratChars_all_num (q : ℚ) : ∀ c ∈ ratChars q, isNumCh c = true := by
  intro c hc
  rw [ratChars] at hc
  rcases List.mem_append.mp hc with h | h
  · unfold intChars at h
    by_cases hi : q.num < 0
    · rw [if_pos hi] at h
      rcases List.mem_cons.mp h with rfl | h2
      · decide
      · simp [isNumCh, natChars_all_digit _ c h2]
    · rw [if_neg hi] at h
      simp [isNumCh, natChars_all_digit _ c h]
  · rcases List.mem_cons.mp h with rfl | h2
    · decide
    · simp [isNumCh, natChars_all_digit _ c h2]

theorem readRat_pre (q : ℚ) (c : Char) (r : List Char) (hc : isNumCh c = false) :
    readRat (ratChars q ++ c :: r) = some (q, c :: r) := by
  obtain ⟨h1, h2⟩ := takeWhile_append_all isNumCh (ratChars q) c r (ratChars_all_num q) hc
  rw [readRat, h1, h2, parseRat_ratChars]

/-- JSON single-character escape decoding (the reader rejects `\u` escapes,
which the emitted document never contains). -/
def escChar (e : Char) : Option Char :=
  if e = '"' then some '"'
  else if e = '\\' then some '\\'
  else if e = '/' then some '/'
  else if e = 'n' then some '\n'
  else if e = 't' then some '\t'
  else if e = 'r' then some '\r'
  else if e = 'b' then some (Char.ofNat 8)
  else if e = 'f' then some (Char.ofNat 12)
  else none

/-- JSON string-literal reader, positioned after the opening quote: decodes
escapes, stops at the unescaped closing quote, rejects raw control
characters and truncated or unknown escapes. The fuel argument (one unit
per emitted character) makes the recursion structural. -/
def readStrAux : ℕ → List Char → Option (List Char × List Char)
  | 0, _ => none
  | _ + 1, [] => none
  | fuel + 1, c :: rest =>
    if c = '"' then some ([], rest)
    else if c = '\\' then
      match rest with
      | [] => none
      | e :: rest2 =>
        match escChar e with
        | none => none
        | some ec => (readStrAux fuel rest2).map (fun p => (ec :: p.1, p.2))
    else if c.toNat < 32 then none
    else (readStrAux fuel rest).map (fun p => (c :: p.1, p.2))

def readStr (l : List Char) : Option (List Char × List Char) :=
  readStrAux l.length l

/-- The Rust `text.replace('"', "\\\"")` applied to `audio_text`: each `"`
becomes `\"`; no other character is escaped. -/
def escQuote : List Char → List Char
  | [] => []
  | c :: rest => if c = '"' then '\\' :: '"' :: escQuote rest else c :: escQuote rest

theorem readStrAux_raw : ∀ (s : List Char) (fuel : ℕ) (r : List Char),
    s.length < fuel →
    (∀ c ∈ s, c ≠ '"' ∧ c ≠ '\\' ∧ 32 ≤ c.toNat) →
    readStrAux fuel (s ++ '"' :: r) = some (s, r) := by
  intro s
  induction s with
  | nil =>
    intro fuel r hf h
    cases fuel with
    | zero => omega
    | succ f =>
      rw [List.nil_append]
      simp only [readStrAux]
      simp
  | cons c s2 ih =>
    intro fuel r hf h
    obtain ⟨h1, h2, h3⟩ := h c (by simp)
    cases fuel with
    | zero => simp at hf
    | succ f =>
      have hf2 : s2.length < f := by
        rw [List.length_cons] at hf
        omega
      rw [List.cons_append]
      simp only [readStrAux]
      rw [if_neg h1, if_neg h2, if_neg (by omega)]
      rw [ih f r hf2 (fun x hx => h x (by simp [hx]))]
      rfl

theorem readStr_raw (s r : List Char)
    (h : ∀ c ∈ s, c ≠ '"' ∧ c ≠ '\\' ∧ 32 ≤ c.toNat) :
    readStr (s ++ '"' :: r) = some (s, r) := by
  rw [readStr]
  refine readStrAux_raw s _ r ?_ h
  rw [List.length_append, List.length_cons]
  omega

theorem readStrAux_escaped : ∀ (s : List Char) (fuel : ℕ) (r : List Char),
    s.length < fuel →
    (∀ c ∈ s, c ≠ '\\' ∧ 32 ≤ c.toNat) →
    readStrAux fuel (escQuote s ++ '"' :: r) = some (s, r) := by
  intro s
  induction s with
  | nil =>
    intro fuel r hf h
    cases fuel with
    | zero => omega
    | succ f =>
      rw [escQuote, List.nil_append]
      simp only [readStrAux]
      simp
  | cons c s2 ih =>
    intro fuel r hf h
    obtain ⟨h2, h3⟩ := h c (by simp)
    cases fuel with
    | zero => simp at hf
    | succ f =>
      have hf2 : s2.length < f := by
        rw [List.length_cons] at hf
        omega
      have ih2 := ih f r hf2 (fun x hx => h x (by simp [hx]))
      by_cases h1 : c = '"'
      · subst h1
        rw [escQuote, if_pos rfl, List.cons_append, List.cons_append]
        simp only [readStrAux]
        have hesc : escChar '"' = some '"' := rfl
        simp [hesc, ih2]
      · rw [escQuote, if_neg h1, List.cons_append]
        simp only [readStrAux]
        rw [if_neg h1, if_neg h2, if_neg (by omega)]
        rw [ih2]
        rfl

theorem length_escQuote_ge : ∀ s : List Char, s.length ≤ (escQuote s).length := by
  intro s
  induction s with
  | nil => simp [escQuote]
  | cons c s2 ih =>
    rw [escQuote]
    by_cases h : c = '"' <;> simp [h] <;> omega

theorem readStr_escaped (s r : List Char)
    (h : ∀ c ∈ s, c ≠ '\\' ∧ 32 ≤ c.toNat) :
    readStr (escQuote s ++ '"' :: r) = some (s, r) := by
  rw [readStr]
  refine readStrAux_escaped s _ r ?_ h
  have hg := length_escQuote_ge s
  rw [List.length_append, List.length_cons]
  omega

/-- Consume an expected literal prefix of the document. -/
def dropLit : List Char → List Char → Option (List Char)
  | [], l => some l
  | _ :: _, [] => none
  | p :: ps, c :: cs => if p = c then dropLit ps cs else none

theorem dropLit_append : ∀ (p r : List Char), dropLit p (p ++ r) = some r := by
  intro p
  induction p with
  | nil => intro r; rfl
  | cons c ps ih =>
    intro r
    rw [List.cons_append]
    simp only [dropLit, if_pos rfl]
    exact ih r

/-- The grammar literals of the emitted document. A literal that follows
variable-width content is split into its first character (kept exposed in
`objChunk`/`recChunk`) and an opaque tail, so that the readers below can
recognize where the variable content ends. -/
def litObjHead : List Char := "      \x7b\n        \"label\": \"".data

def litConfT : List Char := "\n        \"confidence\": ".data

def litBboxT : List Char := "\n        \"bbox\": [".data

def litSepT : List Char := " ".data

def litObjTailT : List Char := "\n      \x7d".data

def litRecHead : List Char := "  \x7b\n    \"timestamp\": ".data

def litVideoObjsT : List Char := "\n    \"video_objects\": [\n".data

def litArrClose : List Char := "    ],\n".data

def litAudio : List Char := "    \"audio_text\": ".data

def litNull : List Char := "null\n".data

def litRecTail : List Char := "  \x7d".data

/-- One object block: the `writeln!` lines `      {`,
`        "label": "L",`, `        "confidence": C,`,
`        "bbox": [a, b, c, d]`, `      }` (separator comma and newline
added by `printObjsAux`). -/
def objChunk (o : VObj) : List Char :=
  litObjHead ++ o.1.data ++ '"' :: ',' :: (litConfT ++ ratChars o.2.1 ++ ',' :: (litBboxT
    ++ ratChars o.2.2.1 ++ ',' :: (litSepT ++ ratChars o.2.2.2.1 ++ ',' :: (litSepT
    ++ ratChars o.2.2.2.2.1 ++ ',' :: (litSepT ++ ratChars o.2.2.2.2.2
    ++ ']' :: litObjTailT)))))

/-- The `for (j, ..) in ..enumerate()` object loop of `save_results`: the
block for object `j`, a comma iff `j < len - 1`, and the line's newline. -/
def printObjsAux (total : ℕ) : ℕ → List VObj → List Char
  | _, [] => []
  | j, o :: rest =>
    objChunk o ++ (if j < total - 1 then ',' :: '\n' :: [] else '\n' :: [])
      ++ printObjsAux total (j + 1) rest

/-- The `audio_text` value as emitted: `null` plus line end, or the quoted
text with only `"` escaped. -/
def audioBody : Option String → List Char
  | none => litNull
  | some t => '"' :: (escQuote t.data ++ '"' :: '\n' :: [])

/-- The `audio_text` line of a record. -/
def audioLine (a : Option String) : List Char := litAudio ++ audioBody a

/-- One record block: `  {`, the timestamp line, the `video_objects` array,
`    ],`, the audio line, `  }` (separator added by `printRecsAux`). -/
def recChunk (r : SynchronizedResult) : List Char :=
  litRecHead ++ ratChars r.timestamp ++ ',' :: (litVideoObjsT
    ++ printObjsAux r.video_objects.length 0 r.video_objects
    ++ litArrClose ++ audioLine r.audio_text ++ litRecTail)

/-- The `for (i, ..) in ..enumerate()` record loop of `save_results`. -/
def printRecsAux (total : ℕ) : ℕ → List SynchronizedResult → List Char
  | _, [] => []
  | i, r :: rest =>
    recChunk r ++ (if i < total - 1 then ',' :: '\n' :: [] else '\n' :: [])
      ++ printRecsAux total (i + 1) rest

/-- `save_results` from `batch_processor.rs`: the exact character content of
the `results.json` document it writes (each `writeln!` ends with `\n`). -/
def save_results (results : List SynchronizedResult) : List Char :=
  '[' :: '\n' :: (printRecsAux results.length 0 results ++ ']' :: '\n' :: [])

/-- The object blocks joined by `,\n`, with a final `\n`. -/
def sepObjChunks : List VObj → List Char
  | [] => []
  | [o] => objChunk o ++ '\n' :: []
  | o :: rest => objChunk o ++ ',' :: '\n' :: sepObjChunks rest

/-- The record blocks joined by `,\n`, with a final `\n`. -/
def sepRecChunks : List SynchronizedResult → List Char
  | [] => []
  | [r] => recChunk r ++ '\n' :: []
  | r :: rest => recChunk r ++ ',' :: '\n' :: sepRecChunks rest

theorem printObjsAux_eq_sep :
    ∀ (objs : List VObj) (j : ℕ), printObjsAux (j + objs.length) j objs = sepObjChunks objs := by
  intro objs
  induction objs with
  | nil => intro j; rfl
  | cons o rest ih =>
    intro j
    cases rest with
    | nil =>
      rw [printObjsAux, if_neg (by simp)]
      simp [printObjsAux, sepObjChunks]
    | cons o2 rest2 =>
      rw [printObjsAux, if_pos (by simp)]
      have harg : j + (o :: o2 :: rest2).length = (j + 1) + (o2 :: rest2).length := by
        simp
        omega
      rw [harg, ih (j + 1)]
      simp [sepObjChunks]

theorem printRecsAux_eq_sep :
    ∀ (rs : List SynchronizedResult) (i : ℕ),
      printRecsAux (i + rs.length) i rs = sepRecChunks rs := by
  intro rs
  induction rs with
  | nil => intro i; rfl
  | cons r rest ih =>
    intro i
    cases rest with
    | nil =>
      rw [printRecsAux, if_neg (by simp)]
      simp [printRecsAux, sepRecChunks]
    | cons r2 rest2 =>
      rw [printRecsAux, if_pos (by simp)]
      have harg : i + (r :: r2 :: rest2).length = (i + 1) + (r2 :: rest2).length := by
        simp
        omega
      rw [harg, ih (i + 1)]
      simp [sepRecChunks]

theorem objChunk_length_pos (o : VObj) : 1 ≤ (objChunk o).length := by
  rw [objChunk]
  have h1 : 1 ≤ litObjHead.length := by decide
  simp only [List.length_append, List.length_cons]
  omega

theorem recChunk_length_pos (r : SynchronizedResult) : 1 ≤ (recChunk r).length := by
  rw [recChunk]
  have h1 : 1 ≤ litRecHead.length := by decide
  simp only [List.length_append, List.length_cons]
  omega

theorem sepObjChunks_length : ∀ objs : List VObj, objs.length ≤ (sepObjChunks objs).length := by
  intro objs
  induction objs with
  | nil => simp [sepObjChunks]
  | cons o rest ih =>
    cases rest with
    | nil =>
      simp only [sepObjChunks, List.length_append, List.length_cons, List.length_nil]
      have := objChunk_length_pos o
      omega
    | cons o2 rest2 =>
      simp only [sepObjChunks, List.length_append, List.length_cons]
      have h1 := objChunk_length_pos o
      simp only [List.length_cons] at ih ⊢
      omega

theorem sepRecChunks_length :
    ∀ rs : List SynchronizedResult, rs.length ≤ (sepRecChunks rs).length := by
  intro rs
  induction rs with
  | nil => simp [sepRecChunks]
  | cons r rest ih =>
    cases rest with
    | nil =>
      simp only [sepRecChunks, List.length_append, List.length_cons, List.length_nil]
      have := recChunk_length_pos r
      omega
    | cons r2 rest2 =>
      simp only [sepRecChunks, List.length_append, List.length_cons]
      have h1 := recChunk_length_pos r
      simp only [List.length_cons] at ih ⊢
      omega

/-- Label safety: round-tripping needs labels free of `"`, `\` and control
characters, because `save_results` writes labels with no escaping at all. -/
def labelSafeB (s : String) : Bool :=
  s.data.all (fun c => !(c == '"') && !(c == '\\') && decide (32 ≤ c.toNat))

/-- Audio-text safety: `save_results` escapes only `"`, so round-tripping
needs texts free of `\` and control characters (quotes are fine). -/
def textSafeB (s : String) : Bool :=
  s.data.all (fun c => !(c == '\\') && decide (32 ≤ c.toNat))

def recordSafeB (r : SynchronizedResult) : Bool :=
  r.video_objects.all (fun o => labelSafeB o.1) &&
    (match r.audio_text with
     | some t => textSafeB t
     | none => true)

theorem labelSafeB_spec {s : String} (h : labelSafeB s = true) :
    ∀ c ∈ s.data, c ≠ '"' ∧ c ≠ '\\' ∧ 32 ≤ c.toNat := by
  rw [labelSafeB, List.all_eq_true] at h
  intro c hc
  have h2 := h c hc
  simp only [Bool.and_eq_true, Bool.not_eq_true', beq_eq_false_iff_ne, decide_eq_true_eq] at h2
  exact ⟨h2.1.1, h2.1.2, h2.2⟩

theorem textSafeB_spec {s : String} (h : textSafeB s = true) :
    ∀ c ∈ s.data, c ≠ '\\' ∧ 32 ≤ c.toNat := by
  rw [textSafeB, List.all_eq_true] at h
  intro c hc
  have h2 := h c hc
  simp only [Bool.and_eq_true, Bool.not_eq_true', beq_eq_false_iff_ne, decide_eq_true_eq] at h2
  exact ⟨h2.1, h2.2⟩

/-- Reader for one object block of the emitted grammar. -/
def parseObj (l : List Char) : Option (VObj × List Char) :=
  match dropLit litObjHead l with
  | none => none
  | some l1 =>
  match readStr l1 with
  | none => none
  | some (lab, l2) =>
  match dropLit (',' :: litConfT) l2 with
  | none => none
  | some l3 =>
  match readRat l3 with
  | none => none
  | some (conf, l4) =>
  match dropLit (',' :: litBboxT) l4 with
  | none => none
  | some l5 =>
  match readRat l5 with
  | none => none
  | some (b1, l6) =>
  match dropLit (',' :: litSepT) l6 with
  | none => none
  | some l7 =>
  match readRat l7 with
  | none => none
  | some (b2, l8) =>
  match dropLit (',' :: litSepT) l8 with
  | none => none
  | some l9 =>
  match readRat l9 with
  | none => none
  | some (b3, l10) =>
  match dropLit (',' :: litSepT) l10 with
  | none => none
  | some l11 =>
  match readRat l11 with
  | none => none
  | some (b4, l12) =>
  match dropLit (']' :: litObjTailT) l12 with
  | none => none
  | some l13 => some ((String.mk lab, conf, (b1, b2, b3, b4)), l13)

/-- Reader for a non-empty object array body, fuel-bounded. -/
def parseObjs : ℕ → List Char → Option (List VObj × List Char)
  | 0, _ => none
  | fuel + 1, l =>
    match parseObj l with
    | none => none
    | some (o, l1) =>
      match dropLit (',' :: '\n' :: []) l1 with
      | some l2 =>
        match parseObjs fuel l2 with
        | none => none
        | some (os, l3) => some (o :: os, l3)
      | none =>
        match dropLit ('\n' :: []) l1 with
        | some l2 => some ([o], l2)
        | none => none

/-- Reader for the object array: either immediately `    ],` (empty array)
or at least one object block followed by `    ],`. -/
def parseObjsOpt (l : List Char) : Option (List VObj × List Char) :=
  match dropLit litArrClose l with
  | some l4 => some ([], l4)
  | none =>
    match parseObjs l.length l with
    | none => none
    | some (os, l4) =>
      match dropLit litArrClose l4 with
      | none => none
      | some l5 => some (os, l5)

/-- Reader for the `audio_text` value: `null` or a JSON string. -/
def parseAudioOpt (l : List Char) : Option (Option String × List Char) :=
  match dropLit litNull l with
  | some l6 => some (none, l6)
  | none =>
    match l with
    | '"' :: l5b =>
      match readStr l5b with
      | none => none
      | some (t, l6) =>
        match dropLit ('\n' :: []) l6 with
        | none => none
        | some l7 => some (some (String.mk t), l7)
    | _ => none

/-- Reader for one record block. -/
def parseRec (l : List Char) : Option (SynchronizedResult × List Char) :=
  match dropLit litRecHead l with
  | none => none
  | some l1 =>
  match readRat l1 with
  | none => none
  | some (ts, l2) =>
  match dropLit (',' :: litVideoObjsT) l2 with
  | none => none
  | some l3 =>
  match parseObjsOpt l3 with
  | none => none
  | some (objs, l4) =>
  match dropLit litAudio l4 with
  | none => none
  | some l5 =>
  match parseAudioOpt l5 with
  | none => none
  | some (atext, l6) =>
  match dropLit litRecTail l6 with
  | none => none
  | some l7 => some (⟨ts, objs, atext⟩, l7)

/-- Reader for a non-empty record list, fuel-bounded. -/
def parseRecs : ℕ → List Char → Option (List SynchronizedResult × List Char)
  | 0, _ => none
  | fuel + 1, l =>
    match parseRec l with
    | none => none
    | some (r, l1) =>
      match dropLit (',' :: '\n' :: []) l1 with
      | some l2 =>
        match parseRecs fuel l2 with
        | none => none
        | some (rs, l3) => some (r :: rs, l3)
      | none =>
        match dropLit ('\n' :: []) l1 with
        | some l2 => some ([r], l2)
        | none => none

/-- Modelled from the spec: "parsing the persisted per-asset result document
(results.json) as JSON". The external JSON parser is not part of this
repository; it is modelled as a reader of the document grammar
`save_results` emits, with JSON token semantics for strings (escape
decoding, rejection of raw control characters and invalid escapes) and the
number codec above. -/
def parseResults (l : List Char) : Option (List SynchronizedResult) :=
  match dropLit ('[' :: '\n' :: []) l with
  | none => none
  | some l1 =>
    match dropLit (']' :: '\n' :: []) l1 with
    | some l2 => if l2.isEmpty then some [] else none
    | none =>
      match parseRecs l1.length l1 with
      | none => none
      | some (rs, l2) =>
        match dropLit (']' :: '\n' :: []) l2 with
        | none => none
        | some l3 => if l3.isEmpty then some rs else none

theorem dropLit_cons_self (c : Char) (t X : List Char) :
    dropLit (c :: t) (c :: (t ++ X)) = some X := by
  rw [show dropLit (c :: t) (c :: (t ++ X))
      = if c = c then dropLit t (t ++ X) else none from rfl]
  rw [if_pos rfl, dropLit_append]

theorem dropLit_sep_nl (X : List Char) : dropLit (',' :: '\n' :: []) ('\n' :: X) = none := rfl

theorem dropLit_sep_comma (X : List Char) :
    dropLit (',' :: '\n' :: []) (',' :: '\n' :: X) = some X := rfl

theorem dropLit_nl (X : List Char) : dropLit ('\n' :: []) ('\n' :: X) = some X := rfl

theorem dropLit_open (X : List Char) :
    dropLit ('[' :: '\n' :: []) ('[' :: '\n' :: X) = some X := rfl

theorem dropLit_close (X : List Char) :
    dropLit (']' :: '\n' :: []) (']' :: '\n' :: X) = some X := rfl

theorem arrClose_mismatch (X : List Char) :
    dropLit litArrClose (litObjHead ++ X) = none := rfl

theorem null_mismatch (X : List Char) : dropLit litNull ('"' :: X) = none := rfl

theorem close_mismatch (X : List Char) :
    dropLit (']' :: '\n' :: []) (litRecHead ++ X) = none := rfl

theorem parseObj_chunk (o : VObj) (r : List Char) (h : labelSafeB o.1 = true) :
    parseObj (objChunk o ++ r) = some (o, r) := by
  obtain ⟨lab, conf, b1, b2, b3, b4⟩ := o
  have hstr : ∀ X, readStr (lab.data ++ '"' :: X) = some (lab.data, X) :=
    fun X => readStr_raw lab.data X (labelSafeB_spec h)
  have hcomma : ∀ (q : ℚ) (X : List Char), readRat (ratChars q ++ ',' :: X) = some (q, ',' :: X) :=
    fun q X => readRat_pre q ',' X (by decide)
  have hbrack : ∀ (q : ℚ) (X : List Char), readRat (ratChars q ++ ']' :: X) = some (q, ']' :: X) :=
    fun q X => readRat_pre q ']' X (by decide)
  simp only [objChunk, parseObj, List.append_assoc, List.cons_append, dropLit_append,
    dropLit_cons_self, hstr, hcomma, hbrack]

theorem parseObjs_sep : ∀ (objs : List VObj) (fuel : ℕ) (r : List Char),
    objs ≠ [] → objs.length ≤ fuel →
    (∀ o ∈ objs, labelSafeB o.1 = true) →
    parseObjs fuel (sepObjChunks objs ++ r) = some (objs, r) := by
  intro objs
  induction objs with
  | nil => intro fuel r hne hlen hsafe; exact absurd rfl hne
  | cons o rest ih =>
    intro fuel r hne hlen hsafe
    cases fuel with
    | zero => simp at hlen
    | succ f =>
      cases rest with
      | nil =>
        simp only [sepObjChunks, List.append_assoc, List.cons_append, List.nil_append,
          parseObjs, parseObj_chunk o _ (hsafe o (by simp)), dropLit_sep_nl, dropLit_nl]
      | cons o2 rest2 =>
        have hlen2 : (o2 :: rest2).length ≤ f := by
          simp only [List.length_cons] at hlen ⊢
          omega
        have ih2 := ih f r (by simp) hlen2 (fun x hx => hsafe x (by simp [hx]))
        simp only [sepObjChunks, List.append_assoc, List.cons_append,
          parseObjs, parseObj_chunk o _ (hsafe o (by simp)), dropLit_sep_comma, ih2]

theorem parseObjsOpt_spec (objs : List VObj)
    (hsafe : ∀ o ∈ objs, labelSafeB o.1 = true) :
    ∀ tail, parseObjsOpt (printObjsAux objs.length 0 objs ++ (litArrClose ++ tail))
      = some (objs, tail) := by
  intro tail
  cases objs with
  | nil =>
    simp only [printObjsAux, List.nil_append, parseObjsOpt, dropLit_append]
  | cons o rest =>
    have hp := printObjsAux_eq_sep (o :: rest) 0
    rw [Nat.zero_add] at hp
    rw [hp]
    have hmis : dropLit litArrClose (sepObjChunks (o :: rest) ++ (litArrClose ++ tail)) = none := by
      cases rest with
      | nil =>
        simp only [sepObjChunks, objChunk, List.append_assoc, List.cons_append]
        exact arrClose_mismatch _
      | cons o2 rest2 =>
        simp only [sepObjChunks, objChunk, List.append_assoc, List.cons_append]
        exact arrClose_mismatch _
    have hfuel : (o :: rest).length
        ≤ (sepObjChunks (o :: rest) ++ (litArrClose ++ tail)).length := by
      have h1 := sepObjChunks_length (o :: rest)
      rw [List.length_append]
      omega
    have hps := parseObjs_sep (o :: rest) _ (litArrClose ++ tail) (by simp) hfuel hsafe
    simp only [parseObjsOpt, hmis, hps, dropLit_append]

theorem parseAudioOpt_spec (a : Option String)
    (h : ∀ t, a = some t → textSafeB t = true) :
    ∀ tail, parseAudioOpt (audioBody a ++ tail) = some (a, tail) := by
  intro tail
  cases a with
  | none =>
    simp only [audioBody, parseAudioOpt, dropLit_append]
  | some t =>
    have hstr := readStr_escaped t.data ('\n' :: tail) (textSafeB_spec (h t rfl))
    simp only [audioBody, List.append_assoc, List.cons_append, List.nil_append,
      parseAudioOpt, null_mismatch, hstr, dropLit_nl]

theorem parseRec_chunk (x : SynchronizedResult) (r : List Char)
    (hsafe : recordSafeB x = true) :
    parseRec (recChunk x ++ r) = some (x, r) := by
  obtain ⟨ts, objs, atext⟩ := x
  rw [recordSafeB, Bool.and_eq_true, List.all_eq_true] at hsafe
  obtain ⟨hobjs, hatext⟩ := hsafe
  have hatext2 : ∀ t, atext = some t → textSafeB t = true := by
    intro t ht
    simp only [ht] at hatext
    exact hatext
  have hcomma : ∀ X, readRat (ratChars ts ++ ',' :: X) = some (ts, ',' :: X) :=
    fun X => readRat_pre ts ',' X (by decide)
  have hseg := parseObjsOpt_spec objs hobjs
  have haud := parseAudioOpt_spec atext hatext2
  simp only [recChunk, audioLine, parseRec, List.append_assoc, List.cons_append,
    dropLit_append, dropLit_cons_self, hcomma, hseg, haud]

theorem parseRecs_sep : ∀ (rs : List SynchronizedResult) (fuel : ℕ) (r : List Char),
    rs ≠ [] → rs.length ≤ fuel →
    (∀ x ∈ rs, recordSafeB x = true) →
    parseRecs fuel (sepRecChunks rs ++ r) = some (rs, r) := by
  intro rs
  induction rs with
  | nil => intro fuel r hne hlen hsafe; exact absurd rfl hne
  | cons x rest ih =>
    intro fuel r hne hlen hsafe
    cases fuel with
    | zero => simp at hlen
    | succ f =>
      cases rest with
      | nil =>
        simp only [sepRecChunks, List.append_assoc, List.cons_append, List.nil_append,
          parseRecs, parseRec_chunk x _ (hsafe x (by simp)), dropLit_sep_nl, dropLit_nl]
      | cons x2 rest2 =>
        have hlen2 : (x2 :: rest2).length ≤ f := by
          simp only [List.length_cons] at hlen ⊢
          omega
        have ih2 := ih f r (by simp) hlen2 (fun y hy => hsafe y (by simp [hy]))
        simp only [sepRecChunks, List.append_assoc, List.cons_append,
          parseRecs, parseRec_chunk x _ (hsafe x (by simp)), dropLit_sep_comma, ih2]

/-- C7 (amended): parsing the persisted per-asset result document
reconstructs the record list field-by-field — including the absent (`null`)
versus present distinction for `audio_text` — provided every detection
label is free of `"`, `\` and control characters and every audio text is
free of `\` and control characters. `save_results` escapes only the quotes
of `audio_text`, so outside this class the document does not parse back
(see the counterexample). -/
theorem c7_results_roundtrip (rs : List SynchronizedResult)
    (hsafe : ∀ x ∈ rs, recordSafeB x = true) :
    parseResults (save_results rs) = some rs := by
  cases rs with
  | nil => rfl
  | cons x rest =>
    have hp := printRecsAux_eq_sep (x :: rest) 0
    rw [Nat.zero_add] at hp
    rw [save_results, hp]
    have hmis : dropLit (']' :: '\n' :: [])
        (sepRecChunks (x :: rest) ++ (']' :: '\n' :: [])) = none := by
      cases rest with
      | nil =>
        simp only [sepRecChunks, recChunk, List.append_assoc, List.cons_append]
        exact close_mismatch _
      | cons x2 rest2 =>
        simp only [sepRecChunks, recChunk, List.append_assoc, List.cons_append]
        exact close_mismatch _
    have hfuel : (x :: rest).length
        ≤ (sepRecChunks (x :: rest) ++ (']' :: '\n' :: [])).length := by
      have h1 := sepRecChunks_length (x :: rest)
      rw [List.length_append]
      omega
    have hps := parseRecs_sep (x :: rest) _ (']' :: '\n' :: []) (by simp) hfuel hsafe
    simp only [parseResults, dropLit_open, hmis, hps, dropLit_close, List.isEmpty_nil]
    simp

/-- A record whose detection label contains a double quote. -/
def badRecord : SynchronizedResult := ⟨0, [("a\"b", 0, (0, 0, 0, 0))], none⟩

set_option maxRecDepth 4000 in
/-- C7 counterexample: `save_results` writes labels with no escaping, so the
document produced for a label containing `"` is not valid JSON and does not
parse back; the claim as stated (for every record list) is false. -/
theorem c7_results_roundtrip_cx :
    parseResults (save_results [badRecord]) = none := by decide

/-- A record list inside the safe class; quotes in the audio text are fine
because the code escapes exactly them. -/
def goodRecord : SynchronizedResult :=
  ⟨mkRat 15 2, [("person", mkRat 9 10, (0, 1, 2, 3))], some "hello \"world\""⟩

/-- C7 witness: the safe fixture record round-trips through the persisted
document. -/
theorem c7_results_roundtrip_witness :
    (∀ x ∈ [goodRecord], recordSafeB x = true)
      ∧ parseResults (save_results [goodRecord]) = some [goodRecord] :=
  ⟨by decide, c7_results_roundtrip [goodRecord] (by decide)⟩
